import Mathlib

/-!
Verification of the block-level compression subsystem of the rocksdb
repository against its natural-language specification.

The embedding is shallow: the `CompressionType` enum and the
`CompressionOptions` struct are translated from
`src/include/rocksdb/compression_type.h`; the backend interface shape comes
from `src/port/win/xpress_win.h`.  Components whose implementation is not
under `src/` (ratio gate, dictionary sampler, parallel scheduler, type
registry, the xpress codec body) are modelled from the spec, each marked
`Modelled from the spec:` in its doc comment.
-/

namespace RocksDB

/-! ## CompressionType (src/include/rocksdb/compression_type.h, lines 18-166)

The enum's underlying type is `unsigned char`; enumerator values are embedded
as `Nat` (all below 256). -/

def kNoCompression : Nat := 0x00

def kSnappyCompression : Nat := 0x01

def kZlibCompression : Nat := 0x02

def kBZip2Compression : Nat := 0x03

def kLZ4Compression : Nat := 0x04

def kLZ4HCCompression : Nat := 0x05

def kXpressCompression : Nat := 0x06

def kZSTD : Nat := 0x07

def kLastBuiltinCompression : Nat := kZSTD

/-- The built-in enumerators in source order (values `0x00`..`0x07`). -/
def builtinCompressionCodes : List Nat :=
  [kNoCompression, kSnappyCompression, kZlibCompression, kBZip2Compression,
   kLZ4Compression, kLZ4HCCompression, kXpressCompression, kZSTD]

/-- The custom-compression enumerators `kCustomCompression80` ..
`kCustomCompressionFE` in source order. -/
def customCompressionCodes : List Nat :=
  [0x80, 0x81, 0x82, 0x83, 0x84, 0x85, 0x86, 0x87, 0x88, 0x89, 0x8A, 0x8B,
   0x8C, 0x8D, 0x8E, 0x8F, 0x90, 0x91, 0x92, 0x93, 0x94, 0x95, 0x96, 0x97,
   0x98, 0x99, 0x9A, 0x9B, 0x9C, 0x9D, 0x9E, 0x9F, 0xA0, 0xA1, 0xA2, 0xA3,
   0xA4, 0xA5, 0xA6, 0xA7, 0xA8, 0xA9, 0xAA, 0xAB, 0xAC, 0xAD, 0xAE, 0xAF,
   0xB0, 0xB1, 0xB2, 0xB3, 0xB4, 0xB5, 0xB6, 0xB7, 0xB8, 0xB9, 0xBA, 0xBB,
   0xBC, 0xBD, 0xBE, 0xBF, 0xC0, 0xC1, 0xC2, 0xC3, 0xC4, 0xC5, 0xC6, 0xC7,
   0xC8, 0xC9, 0xCA, 0xCB, 0xCC, 0xCD, 0xCE, 0xCF, 0xD0, 0xD1, 0xD2, 0xD3,
   0xD4, 0xD5, 0xD6, 0xD7, 0xD8, 0xD9, 0xDA, 0xDB, 0xDC, 0xDD, 0xDE, 0xDF,
   0xE0, 0xE1, 0xE2, 0xE3, 0xE4, 0xE5, 0xE6, 0xE7, 0xE8, 0xE9, 0xEA, 0xEB,
   0xEC, 0xED, 0xEE, 0xEF, 0xF0, 0xF1, 0xF2, 0xF3, 0xF4, 0xF5, 0xF6, 0xF7,
   0xF8, 0xF9, 0xFA, 0xFB, 0xFC, 0xFD, 0xFE]

def kFirstCustomCompression : Nat := 0x80

def kLastCustomCompression : Nat := 0xFE

def kDisableCompressionOption : Nat := 0xff

/-- Every enumerator value appearing in the `CompressionType` enum
(aliases such as `kLastBuiltinCompression` repeat the value they alias). -/
def compressionTypeValues : List Nat :=
  builtinCompressionCodes ++ [kLastBuiltinCompression] ++
    customCompressionCodes ++
    [kFirstCustomCompression, kLastCustomCompression, kDisableCompressionOption]

/-! ## CompressionOptions (src/include/rocksdb/compression_type.h, lines 169-315)

Field order and default values follow the struct declaration.  C++ `int` is
embedded as `Int`; the unsigned fields as `Nat`. -/

def CompressionOptionsDefaultCompressionLevel : Int := 32767

structure CompressionOptions where
  window_bits : Int := -14
  level : Int := CompressionOptionsDefaultCompressionLevel
  strategy : Int := 0
  max_dict_bytes : Nat := 0
  zstd_max_train_bytes : Nat := 0
  parallel_threads : Nat := 1
  enabled : Bool := false
  max_dict_buffer_bytes : Nat := 0
  use_zstd_dict_trainer : Bool := true
  max_compressed_bytes_per_kb : Int := 1024 * 7 / 8
  checksum : Bool := false

/-- A default-constructed `CompressionOptions` (all member initializers). -/
def defaultCompressionOptions : CompressionOptions := {}

/-- C++ `static_cast<int>` on a real value: truncation toward zero.  The
`double` arithmetic of `SetMinRatio` is embedded over `ℚ`; all values the
claims touch are far from any `double` rounding boundary. -/
def castToInt (q : ℚ) : Int := if 0 ≤ q then Int.floor q else Int.ceil q

/-- `CompressionOptions::SetMinRatio` (compression_type.h, lines 308-310):
`max_compressed_bytes_per_kb = static_cast<int>(1024.0 / min_ratio + 0.5)`.
Note the source performs no clamping. -/
def SetMinRatio (opts : CompressionOptions) (min_ratio : ℚ) : CompressionOptions :=
  { opts with max_compressed_bytes_per_kb := castToInt (1024 / min_ratio + 1 / 2) }

/-! ## Ratio gate -/

/-- Modelled from the spec: the per-block ratio-gate check of the block-based
table builder is not under `src/`.  Spec §4.4:
`allowed = ceil(L/1024) * max_compressed_bytes_per_kb`. -/
def ratioGateAllowed (rawLength maxCompressedBytesPerKb : Nat) : Nat :=
  ((rawLength + 1023) / 1024) * maxCompressedBytesPerKb

/-- Modelled from the spec (§4.4): accept the compressed form iff the
compressed length is strictly below the allowed size. -/
def ratioGateAccept (rawLength compressedLength maxCompressedBytesPerKb : Nat) : Bool :=
  compressedLength < ratioGateAllowed rawLength maxCompressedBytesPerKb

/-- Modelled from the spec (§4.4): the type code stored with the block; on
reject the block is stored uncompressed under `kNoCompression`. -/
def ratioGateTypeCode (rawLength compressedLength maxCompressedBytesPerKb
    compressedCode : Nat) : Nat :=
  if ratioGateAccept rawLength compressedLength maxCompressedBytesPerKb then
    compressedCode
  else
    kNoCompression

/-! ## Reference backend (interface from src/port/win/xpress_win.h)

Only the interface of the xpress backend is under `src/`; the codec body
(`port/win/xpress_win.cc`) is not. -/

namespace xpress

/-- Modelled from the spec: the XPRESS codec implementation is not under
`src/`; per §4.6 the concrete codec mathematics is an external backend
satisfying the fixed contract.  The model codec frames the payload behind a
length header so that every interface operation of
`src/port/win/xpress_win.h` is expressible. -/
def compressedFrame (input : List Nat) : List Nat := input.length :: input

/-- Modelled from the spec: inverse of `compressedFrame`; `none` on a
malformed frame (corrupt input). -/
def decodeFrame (data : List Nat) : Option (List Nat) :=
  match data with
  | [] => none
  | n :: rest => if rest.length = n then some rest else none

/-- `bool Compress(input, length, output)` of xpress_win.h, modelled from the
spec: produces the framed compressed bytes (`none` would be an internal
failure; the model codec always succeeds). -/
def Compress (input : List Nat) : Option (List Nat) := some (compressedFrame input)

/-- `size_t CompressWithMaxSize(input, length, output, max_output_size)` of
xpress_win.h, modelled from the spec: returns (written size, buffer content);
written size 0 and untouched (empty) output on failure, including when the
result does not fit in `max_output_size`. -/
def CompressWithMaxSize (input : List Nat) (max_output_size : Nat) :
    Nat × List Nat :=
  let out := compressedFrame input
  if out.length ≤ max_output_size then (out.length, out) else (0, [])

/-- `char* Decompress(input_data, input_length, uncompressed_size)` of
xpress_win.h, modelled from the spec: `none` on failure. -/
def Decompress (input : List Nat) : Option (List Nat) := decodeFrame input

/-- `int64_t GetDecompressedSize(input, input_length)` of xpress_win.h,
modelled from the spec: the decompressed size, or -1 on corrupt input. -/
def GetDecompressedSize (input : List Nat) : Int :=
  match decodeFrame input with
  | some d => (d.length : Int)
  | none => -1

/-- `int64_t DecompressToBuffer(input, input_length, output, output_length)`
of xpress_win.h, modelled from the spec: bytes written on success, negative
when the input is invalid or the caller-owned buffer is too small. -/
def DecompressToBuffer (input : List Nat) (output_length : Nat) : Int :=
  match decodeFrame input with
  | some d => if d.length ≤ output_length then (d.length : Int) else -1
  | none => -1

end xpress

/-! ## Backend contract and type registry -/

/-- Modelled from the spec (§4.6): the capability set every backend exposes,
reduced to the operations the round-trip claim quantifies over. -/
structure Backend where
  compress : List Nat → Option (List Nat)
  decompress : List Nat → Option (List Nat)

/-- Spec §8.1: a backend round-trips when decompressing a successful
compression output restores the input, for every byte sequence. -/
def Backend.RoundTrips (b : Backend) : Prop :=
  ∀ x : List Nat, ∀ c : List Nat, b.compress x = some c → b.decompress c = some x

/-- The reference backend built from the modelled xpress codec. -/
def xpressBackend : Backend :=
  { compress := xpress.Compress, decompress := xpress.Decompress }

/-- Modelled from the spec (§4.1): the registry maps a type-code byte to a
registered backend; an association list keyed by code. -/
def Registry : Type := List (Nat × Backend)

/-- Modelled from the spec (§4.1): `Resolve(type) -> Backend | NotRegistered`. -/
def Resolve (reg : Registry) (code : Nat) : Option Backend :=
  (List.find? (fun e => e.1 == code) reg).map (fun e => e.2)

inductive RegisterStatus where
  | ok
  | codeAlreadyRegistered
  | codeOutOfRange
deriving DecidableEq

/-- Modelled from the spec (§4.1): `RegisterCustom(type in 0x80..0xFE,
backend) -> Ok | CodeAlreadyRegistered | CodeOutOfRange`; on error the
registry is returned unchanged. -/
def RegisterCustom (reg : Registry) (code : Nat) (backend : Backend) :
    RegisterStatus × Registry :=
  if code < kFirstCustomCompression ∨ kLastCustomCompression < code then
    (RegisterStatus.codeOutOfRange, reg)
  else if (Resolve reg code).isSome then
    (RegisterStatus.codeAlreadyRegistered, reg)
  else
    (RegisterStatus.ok, (code, backend) :: reg)

/-- A registry is well formed when every backend it can resolve satisfies the
backend contract's round-trip obligation (spec §4.6, §8.1). -/
def WellFormedRegistry (reg : Registry) : Prop :=
  ∀ code b, Resolve reg code = some b → b.RoundTrips

/-! ## Dictionary sampler/trainer -/

inductive SamplerPhase where
  | collecting
  | finalizing
  | abandoned
deriving DecidableEq

structure SamplerState where
  buffered : Nat
  phase : SamplerPhase
deriving DecidableEq

def initSampler : SamplerState :=
  { buffered := 0, phase := SamplerPhase.collecting }

/-- Modelled from the spec (§4.3): the dictionary sampler implementation is
not under `src/`.  One incoming block's sample of `sampleLen` bytes together
with the memory accountant's response: with dictionaries disabled the sampler
is abandoned; on charge denial it finalizes immediately with what is
buffered; otherwise the sample is appended, capped at
`max_dict_buffer_bytes` when that is nonzero, finalizing once the cap is
reached.  (The enclosing file-size target bound is an external collaborator
and is not modelled.) -/
def sampleStep (opts : CompressionOptions) (st : SamplerState)
    (sampleLen : Nat) (chargeGranted : Bool) : SamplerState :=
  match st.phase with
  | SamplerPhase.collecting =>
    if opts.max_dict_bytes = 0 then
      { st with phase := SamplerPhase.abandoned }
    else if chargeGranted = false then
      { st with phase := SamplerPhase.finalizing }
    else if opts.max_dict_buffer_bytes = 0 then
      { st with buffered := st.buffered + sampleLen }
    else
      let b := min (st.buffered + sampleLen) opts.max_dict_buffer_bytes
      if b = opts.max_dict_buffer_bytes then
        { buffered := b, phase := SamplerPhase.finalizing }
      else
        { st with buffered := b }
  | _ => st

/-- Run the sampler over a sequence of (sample length, charge granted)
events. -/
def runSampler (opts : CompressionOptions) (events : List (Nat × Bool)) :
    SamplerState :=
  events.foldl (fun st e => sampleStep opts st e.1 e.2) initSampler

inductive DictSource where
  | trainerPass (trainBytes : Nat)
  | directFinalize (trainBytes : Nat)
  | rawSamples
deriving DecidableEq

/-- Modelled from the spec (§4.3, Finalizing): pick the dictionary
construction route and the resulting blob size; a total function — every
route yields a dictionary (possibly empty), so finalization never errors. -/
def finalizeDictionary (opts : CompressionOptions) (st : SamplerState) :
    DictSource × Nat :=
  if opts.zstd_max_train_bytes ≠ 0 then
    if opts.use_zstd_dict_trainer then
      (DictSource.trainerPass (min st.buffered opts.zstd_max_train_bytes),
       min st.buffered opts.max_dict_bytes)
    else
      (DictSource.directFinalize (min st.buffered opts.zstd_max_train_bytes),
       min st.buffered opts.max_dict_bytes)
  else
    (DictSource.rawSamples, min st.buffered opts.max_dict_bytes)

/-! ## Parallel compression scheduler: in-order delivery sequencer -/

structure SchedulerState where
  nextIdx : Nat
  held : List Nat
  delivered : List Nat
deriving DecidableEq

/-- Modelled from the spec (§4.5, §9): the per-session sequencer of the
parallel scheduler is not under `src/`.  `drain` releases
completed-but-held results to the consumer strictly in submission order:
while the next-to-deliver index is held, deliver it and advance.  Fuel
bounds the loop; any fuel at least `held.length` reaches the fixpoint. -/
def drain : Nat → SchedulerState → SchedulerState
  | 0, st => st
  | fuel + 1, st =>
    if st.nextIdx ∈ st.held then
      drain fuel
        { nextIdx := st.nextIdx + 1,
          held := st.held.erase st.nextIdx,
          delivered := st.delivered ++ [st.nextIdx] }
    else
      st

/-- Modelled from the spec (§4.5): a worker's completion notification for
block `i` places the result in the holding area, then drains whatever has
become deliverable. -/
def onComplete (fuel : Nat) (st : SchedulerState) (i : Nat) : SchedulerState :=
  drain fuel { st with held := i :: st.held }

def initScheduler : SchedulerState :=
  { nextIdx := 0, held := [], delivered := [] }

/-- Modelled from the spec (§4.5): run the sequencer for blocks `0..n-1`
against an arbitrary worker completion order and collect the delivery order
seen by the file-building collaborator. -/
def runScheduler (n : Nat) (completions : List Nat) : List Nat :=
  (completions.foldl (onComplete n) initScheduler).delivered

/-- Sequencer invariant relative to the multiset `processed` of completion
notifications handled so far: delivered results are exactly the initial
segment below `nextIdx`, the holding area holds exactly the completed blocks
not yet deliverable, and everything below `nextIdx` has completed. -/
def SchedInv (processed : List Nat) (st : SchedulerState) : Prop :=
  st.delivered = List.range st.nextIdx ∧
  st.held.Nodup ∧
  (∀ i, i ∈ st.held ↔ i ∈ processed ∧ st.nextIdx ≤ i) ∧
  (∀ i, i < st.nextIdx → i ∈ processed)

end RocksDB

namespace RocksDB

/-! ## Helper lemmas -/

theorem length_le_of_nodup_lt (l : List Nat) (n : Nat) (hnd : l.Nodup)
    (hlt : ∀ j ∈ l, j < n) : l.length ≤ n := by
  calc l.length = l.toFinset.card := (List.toFinset_card_of_nodup hnd).symm
    _ ≤ (Finset.range n).card := by
        refine Finset.card_le_card ?_
        intro x hx
        exact Finset.mem_range.mpr (hlt x (List.mem_toFinset.mp hx))
    _ = n := Finset.card_range n

theorem xpress_frame_roundtrip (x : List Nat) :
    xpress.decodeFrame (xpress.compressedFrame x) = some x := by
  simp [xpress.compressedFrame, xpress.decodeFrame]

theorem xpressBackend_roundTrips : xpressBackend.RoundTrips := by
  intro x c hc
  have hx : c = xpress.compressedFrame x := by
    simpa [xpressBackend, xpress.Compress] using hc.symm
  simp [xpressBackend, xpress.Decompress, hx, xpress_frame_roundtrip]

theorem Resolve_cons (e : Nat × Backend) (reg : Registry) (code : Nat) :
    Resolve (e :: reg) code = if e.1 = code then some e.2 else Resolve reg code := by
  by_cases h : e.1 = code
  · rw [if_pos h]
    unfold Resolve
    rw [List.find?_cons_of_pos _ (by simpa using h)]
    rfl
  · rw [if_neg h]
    unfold Resolve
    rw [List.find?_cons_of_neg _ (by simpa using h)]

end RocksDB

namespace RocksDB

/-! ## Claim theorems -/

/-- Claim C2: the `CompressionType` code space layout: the built-in values
occupy exactly `0x00`..`0x07` with `0x00` = no compression and `0x07` =
`kZSTD` the last built-in; the custom values are exactly `0x80`..`0xFE`;
`0xFF` is the distinct compression-disabled sentinel; and no enumerator
value lies in the reserved gap `0x08`..`0x7F`. -/
theorem compressionType_code_space_layout :
    builtinCompressionCodes = List.range 8 ∧
    kNoCompression = 0x00 ∧
    kLastBuiltinCompression = kZSTD ∧
    kZSTD = 0x07 ∧
    customCompressionCodes = (List.range 127).map (fun i => 0x80 + i) ∧
    (customCompressionCodes.all fun c => decide (0x80 ≤ c) && decide (c ≤ 0xFE)) = true ∧
    kDisableCompressionOption = 0xFF ∧
    customCompressionCodes.contains 0xFF = false ∧
    builtinCompressionCodes.contains 0xFF = false ∧
    (compressionTypeValues.all fun v => !(decide (0x08 ≤ v) && decide (v ≤ 0x7F))) = true := by
  decide

/-- Claim C10: a default-constructed `CompressionOptions` disables every
optional subsystem feature and satisfies the spec's field invariants:
`max_dict_bytes = 0`, `max_dict_buffer_bytes = 0`, `parallel_threads = 1`,
`enabled = false`, `checksum = false`, and
`max_compressed_bytes_per_kb = 896 ∈ [1, 1024]`. -/
theorem default_compression_options_fields :
    defaultCompressionOptions.max_dict_bytes = 0 ∧
    defaultCompressionOptions.max_dict_buffer_bytes = 0 ∧
    defaultCompressionOptions.parallel_threads = 1 ∧
    defaultCompressionOptions.enabled = false ∧
    defaultCompressionOptions.checksum = false ∧
    defaultCompressionOptions.max_compressed_bytes_per_kb = 896 ∧
    1 ≤ defaultCompressionOptions.max_compressed_bytes_per_kb ∧
    defaultCompressionOptions.max_compressed_bytes_per_kb ≤ 1024 := by
  refine ⟨rfl, rfl, rfl, rfl, rfl, by decide, by decide, by decide⟩

/-- Claim C3: for raw length `L`, compressed length `C` and threshold
`T ∈ [1, 1024]`, the ratio gate stores the compressed form iff
`C < ceil(L/1024) * T` (strict); at `C = ceil(L/1024) * T` exactly, the
block is stored uncompressed under the no-compression type code. -/
theorem ratio_gate_threshold (L C T code : Nat) (h1 : 1 ≤ T) (h2 : T ≤ 1024) :
    (ratioGateAccept L C T = true ↔ C < ((L + 1023) / 1024) * T) ∧
    (C < ((L + 1023) / 1024) * T → ratioGateTypeCode L C T code = code) ∧
    (C = ((L + 1023) / 1024) * T → ratioGateTypeCode L C T code = kNoCompression) := by
  refine ⟨by simp [ratioGateAccept, ratioGateAllowed], ?_, ?_⟩
  · intro hlt
    simp [ratioGateTypeCode, ratioGateAccept, ratioGateAllowed, hlt]
  · intro heq
    have hnot : ¬ C < ((L + 1023) / 1024) * T := by omega
    simp [ratioGateTypeCode, ratioGateAccept, ratioGateAllowed, hnot]

/-- Witness for C3: a 2 KB block at the default threshold 896: compressed
size 1791 is accepted, compressed size exactly `2 * 896 = 1792` is stored
uncompressed. -/
theorem ratio_gate_threshold_witness :
    (1 ≤ 896 ∧ 896 ≤ 1024) ∧
    ratioGateTypeCode 2048 1792 896 kZSTD = kNoCompression ∧
    ratioGateTypeCode 2048 1791 896 kZSTD = kZSTD := by
  refine ⟨by decide, (ratio_gate_threshold 2048 1792 896 kZSTD (by decide) (by decide)).2.2 (by decide),
    (ratio_gate_threshold 2048 1791 896 kZSTD (by decide) (by decide)).2.1 (by decide)⟩

/-- Claim C6: `CompressWithMaxSize` either returns the size of a complete
compressed result that fits within `max_output_size` (decompressing the
written output restores the input), or returns 0 — exactly when the result
would not fit — with no partially-written output in the 0 case. -/
theorem compressWithMaxSize_contract (input : List Nat) (maxOut : Nat) :
    ((xpress.CompressWithMaxSize input maxOut).1 ≠ 0 →
      (xpress.CompressWithMaxSize input maxOut).2.length =
        (xpress.CompressWithMaxSize input maxOut).1 ∧
      (xpress.CompressWithMaxSize input maxOut).1 ≤ maxOut ∧
      xpress.Decompress (xpress.CompressWithMaxSize input maxOut).2 = some input) ∧
    ((xpress.CompressWithMaxSize input maxOut).1 = 0 →
      (xpress.CompressWithMaxSize input maxOut).2 = []) ∧
    ((xpress.CompressWithMaxSize input maxOut).1 = 0 ↔
      maxOut < (xpress.compressedFrame input).length) := by
  by_cases h : input.length + 1 ≤ maxOut
  · refine ⟨fun _ => ?_, fun h0 => ?_, ?_⟩
    · simp [xpress.CompressWithMaxSize, xpress.compressedFrame, h,
        xpress.Decompress, xpress.decodeFrame]
    · simp [xpress.CompressWithMaxSize, xpress.compressedFrame, h] at h0
    · simp [xpress.CompressWithMaxSize, xpress.compressedFrame, h]
  · refine ⟨fun hne => absurd ?_ hne, fun _ => ?_, ?_⟩
    · simp [xpress.CompressWithMaxSize, xpress.compressedFrame, h]
    · simp [xpress.CompressWithMaxSize, xpress.compressedFrame, h]
    · simp [xpress.CompressWithMaxSize, xpress.compressedFrame, h]
      omega

/-- Witness for C6: input `[1, 2]` fits in a 3-byte bound and round-trips;
the same input does not fit in a 2-byte bound, yielding 0 written and an
untouched output. -/
theorem compressWithMaxSize_contract_witness :
    ((xpress.CompressWithMaxSize [1, 2] 3).2.length =
        (xpress.CompressWithMaxSize [1, 2] 3).1 ∧
      (xpress.CompressWithMaxSize [1, 2] 3).1 ≤ 3 ∧
      xpress.Decompress (xpress.CompressWithMaxSize [1, 2] 3).2 = some [1, 2]) ∧
    (xpress.CompressWithMaxSize [1, 2] 2).2 = [] :=
  ⟨(compressWithMaxSize_contract [1, 2] 3).1 (by decide),
   (compressWithMaxSize_contract [1, 2] 2).2.1 (by decide)⟩

/-- Claim C9: `DecompressToBuffer` returns the number of bytes written on
success, is negative exactly when the input is invalid or the caller-owned
buffer is too small, and a 0 return is precisely a valid zero-length
success, distinct from the negative failure signal. -/
theorem decompressToBuffer_contract (input : List Nat) (outLen : Nat) :
    (xpress.DecompressToBuffer input outLen < 0 ↔
      xpress.decodeFrame input = none ∨
      (∃ d, xpress.decodeFrame input = some d ∧ outLen < d.length)) ∧
    (∀ d, xpress.decodeFrame input = some d → d.length ≤ outLen →
      xpress.DecompressToBuffer input outLen = (d.length : Int)) ∧
    (xpress.DecompressToBuffer input outLen = 0 ↔
      xpress.decodeFrame input = some []) := by
  rcases hdec : xpress.decodeFrame input with _ | d
  · refine ⟨by simp [xpress.DecompressToBuffer, hdec], ?_,
      by simp [xpress.DecompressToBuffer, hdec]⟩
    intro d hd
    simp [hdec] at hd
  · have hval : xpress.DecompressToBuffer input outLen =
        (if d.length ≤ outLen then (d.length : Int) else -1) := by
      simp [xpress.DecompressToBuffer, hdec]
    by_cases hfit : d.length ≤ outLen
    · rw [if_pos hfit] at hval
      refine ⟨?_, ?_, ?_⟩
      · constructor
        · intro hneg
          rw [hval] at hneg
          omega
        · rintro (hnone | ⟨d2, hd2, hlen⟩)
          · exact absurd hnone (by simp)
          · have hdd : d = d2 := Option.some.inj hd2
            subst hdd
            omega
      · intro d2 hd2 _
        have hdd : d = d2 := Option.some.inj hd2
        subst hdd
        exact hval
      · rw [hval]
        constructor
        · intro hz
          have hlen0 : d.length = 0 := by exact_mod_cast hz
          rw [List.eq_nil_of_length_eq_zero hlen0]
        · intro hd0
          have hdd : d = [] := Option.some.inj hd0
          subst hdd
          rfl
    · rw [if_neg hfit] at hval
      refine ⟨?_, ?_, ?_⟩
      · constructor
        · intro _
          exact Or.inr ⟨d, rfl, by omega⟩
        · intro _
          rw [hval]
          decide
      · intro d2 hd2 hlen
        have hdd : d = d2 := Option.some.inj hd2
        subst hdd
        omega
      · rw [hval]
        constructor
        · intro hz
          exact absurd hz (by decide)
        · intro hd0
          have hdd : d = [] := Option.some.inj hd0
          subst hdd
          simp at hfit

/-- Witness for C9: a valid zero-length frame succeeds with 0 into a 0-byte
buffer; a 2-byte payload into a 1-byte buffer is a negative failure. -/
theorem decompressToBuffer_contract_witness :
    xpress.DecompressToBuffer (xpress.compressedFrame []) 0 = 0 ∧
    xpress.DecompressToBuffer (xpress.compressedFrame [5, 6]) 1 < 0 := by
  constructor
  · exact (decompressToBuffer_contract (xpress.compressedFrame []) 0).2.2.mpr
      (xpress_frame_roundtrip [])
  · exact (decompressToBuffer_contract (xpress.compressedFrame [5, 6]) 1).1.mpr
      (Or.inr ⟨[5, 6], xpress_frame_roundtrip [5, 6], by decide⟩)

/-- Claim C8: `RegisterCustom` with a code outside `0x80..0xFE` returns the
out-of-range configuration error with the registry unchanged; any non-ok
result leaves the registry unchanged; and registering at an
already-registered code fails without replacing the existing registration —
for every registry state and backend argument. -/
theorem registerCustom_error_cases (reg : Registry) (code : Nat) (b : Backend) :
    ((code < kFirstCustomCompression ∨ kLastCustomCompression < code) →
      RegisterCustom reg code b = (RegisterStatus.codeOutOfRange, reg)) ∧
    ((RegisterCustom reg code b).1 ≠ RegisterStatus.ok →
      (RegisterCustom reg code b).2 = reg) ∧
    (∀ b0, Resolve reg code = some b0 →
      (RegisterCustom reg code b).1 ≠ RegisterStatus.ok ∧
      Resolve (RegisterCustom reg code b).2 code = some b0) := by
  by_cases h1 : code < kFirstCustomCompression ∨ kLastCustomCompression < code
  · refine ⟨fun _ => by simp [RegisterCustom, h1], ?_, ?_⟩
    · intro _
      simp [RegisterCustom, h1]
    · intro b0 hb0
      simp [RegisterCustom, h1, hb0]
  · by_cases h2 : (Resolve reg code).isSome
    · refine ⟨fun hc => absurd hc h1, ?_, ?_⟩
      · intro _
        simp [RegisterCustom, h1, h2]
      · intro b0 hb0
        simp [RegisterCustom, h1, h2, hb0]
    · refine ⟨fun hc => absurd hc h1, ?_, ?_⟩
      · intro hne
        exact absurd (by simp [RegisterCustom, h1, h2]) hne
      · intro b0 hb0
        rw [hb0] at h2
        simp at h2

/-- Witness for C8: registering at code `0x10` (in the reserved built-in
gap) on the empty registry fails out-of-range leaving it empty; registering
twice at `0x80` keeps the first registration resolvable. -/
theorem registerCustom_error_cases_witness :
    RegisterCustom [] 0x10 xpressBackend = (RegisterStatus.codeOutOfRange, []) ∧
    (RegisterCustom [(0x80, xpressBackend)] 0x80
        { compress := fun _ => none, decompress := fun _ => none }).1 ≠
      RegisterStatus.ok ∧
    Resolve (RegisterCustom [(0x80, xpressBackend)] 0x80
        { compress := fun _ => none, decompress := fun _ => none }).2 0x80 =
      some xpressBackend :=
  ⟨(registerCustom_error_cases [] 0x10 xpressBackend).1 (Or.inl (by decide)),
   (registerCustom_error_cases [(0x80, xpressBackend)] 0x80
      { compress := fun _ => none, decompress := fun _ => none }).2.2
     xpressBackend rfl⟩

/-- Claim C7: for every backend registered at a type code in `0x00..0x07` or
`0x80..0xFE` of a registry whose backends honor the backend contract's
round-trip obligation, decompressing the output of compressing any byte
sequence `x` yields `x` again; the modelled reference backend realizes that
obligation for every `x`, including the empty and single-byte sequences. -/
theorem registered_backend_roundtrip (reg : Registry) (code : Nat) (b : Backend)
    (hwf : WellFormedRegistry reg)
    (hcode : code ∈ builtinCompressionCodes ∨ code ∈ customCompressionCodes)
    (hres : Resolve reg code = some b)
    (x c : List Nat) (hc : b.compress x = some c) :
    b.decompress c = some x ∧
    xpressBackend.decompress (xpress.compressedFrame x) = some x :=
  ⟨hwf code b hres x c hc,
   by simp [xpressBackend, xpress.Decompress, xpress_frame_roundtrip]⟩

/-- Witness for C7: a registry holding the reference backend at the xpress
built-in code round-trips the empty and a single-byte sequence. -/
theorem registered_backend_roundtrip_witness :
    xpressBackend.decompress (xpress.compressedFrame []) = some [] ∧
    xpressBackend.decompress (xpress.compressedFrame [42]) = some [42] := by
  have hwf : WellFormedRegistry [(kXpressCompression, xpressBackend)] := by
    intro c b hb
    rw [Resolve_cons] at hb
    by_cases hc : kXpressCompression = c
    · rw [if_pos hc] at hb
      exact Option.some.inj hb ▸ xpressBackend_roundTrips
    · rw [if_neg hc] at hb
      exact absurd hb (by simp [Resolve, List.find?])
  constructor
  · exact (registered_backend_roundtrip [(kXpressCompression, xpressBackend)]
      kXpressCompression xpressBackend hwf (Or.inl (by decide)) rfl [] _ rfl).1
  · exact (registered_backend_roundtrip [(kXpressCompression, xpressBackend)]
      kXpressCompression xpressBackend hwf (Or.inl (by decide)) rfl [42] _ rfl).1

/-- Counterexample to claim C1 as stated: `SetMinRatio` performs no clamping,
so the minimum ratio `R = 2049 > 1` yields
`max_compressed_bytes_per_kb = 0`, below the claimed lower clamp of 1. -/
theorem setMinRatio_not_clamped_counterexample :
    (1 : ℚ) < 2049 ∧
    (SetMinRatio defaultCompressionOptions 2049).max_compressed_bytes_per_kb = 0 := by
  constructor
  · norm_num
  · show castToInt (1024 / 2049 + 1 / 2) = 0
    rw [castToInt, if_pos (by norm_num)]
    rw [Int.floor_eq_zero_iff]
    refine Set.mem_Ico.mpr ⟨by norm_num, by norm_num⟩

/-- Claim C1 (amended): for every minimum ratio `R > 1`, `SetMinRatio` sets
`max_compressed_bytes_per_kb` to `floor(1024/R + 1/2)` with no clamping: the
result never exceeds 1024 and is never negative, but it is at least 1 only
for `R ≤ 2048`; beyond 2048 it drops to 0 instead of being clamped to 1. -/
theorem setMinRatio_bounds (opts : CompressionOptions) (R : ℚ) (hR : 1 < R) :
    (SetMinRatio opts R).max_compressed_bytes_per_kb = Int.floor (1024 / R + 1 / 2) ∧
    (SetMinRatio opts R).max_compressed_bytes_per_kb ≤ 1024 ∧
    0 ≤ (SetMinRatio opts R).max_compressed_bytes_per_kb ∧
    (1 ≤ (SetMinRatio opts R).max_compressed_bytes_per_kb ↔ R ≤ 2048) := by
  have hR0 : (0 : ℚ) < R := lt_trans one_pos hR
  have hdivpos : (0 : ℚ) < 1024 / R := div_pos (by norm_num) hR0
  have hq0 : (0 : ℚ) ≤ 1024 / R + 1 / 2 := by linarith
  have hval : (SetMinRatio opts R).max_compressed_bytes_per_kb =
      Int.floor (1024 / R + 1 / 2) := by
    show castToInt (1024 / R + 1 / 2) = _
    rw [castToInt, if_pos hq0]
  refine ⟨hval, ?_, ?_, ?_⟩
  · rw [hval]
    have hlt : 1024 / R < 1024 := by
      rw [div_lt_iff₀ hR0]
      nlinarith
    have hlt2 : (1024 : ℚ) / R + 1 / 2 < ((1025 : ℤ) : ℚ) := by
      push_cast
      linarith
    have h2 := Int.floor_lt.mpr hlt2
    omega
  · rw [hval]
    exact Int.floor_nonneg.mpr hq0
  · rw [hval, Int.le_floor]
    constructor
    · intro h
      have h12 : (1 : ℚ) / 2 ≤ 1024 / R := by
        push_cast at h
        linarith
      rw [le_div_iff₀ hR0] at h12
      linarith
    · intro h
      have h12 : (1 : ℚ) / 2 ≤ 1024 / R := by
        rw [le_div_iff₀ hR0]
        linarith
      push_cast
      linarith

/-- Witness for C1 (amended): at `R = 2` the result is
`floor(512.5) = 512`, within the bounds. -/
theorem setMinRatio_bounds_witness :
    (1 : ℚ) < 2 ∧
    ((SetMinRatio defaultCompressionOptions 2).max_compressed_bytes_per_kb =
        Int.floor ((1024 : ℚ) / 2 + 1 / 2) ∧
      (SetMinRatio defaultCompressionOptions 2).max_compressed_bytes_per_kb ≤ 1024 ∧
      0 ≤ (SetMinRatio defaultCompressionOptions 2).max_compressed_bytes_per_kb ∧
      (1 ≤ (SetMinRatio defaultCompressionOptions 2).max_compressed_bytes_per_kb ↔
        (2 : ℚ) ≤ 2048)) :=
  ⟨by norm_num, setMinRatio_bounds defaultCompressionOptions 2 (by norm_num)⟩

/-- One sampler step never pushes the buffer past a nonzero
`max_dict_buffer_bytes`. -/
theorem sampleStep_buffered_le (opts : CompressionOptions) (st : SamplerState)
    (s : Nat) (g : Bool) (h : opts.max_dict_buffer_bytes ≠ 0)
    (hst : st.buffered ≤ opts.max_dict_buffer_bytes) :
    (sampleStep opts st s g).buffered ≤ opts.max_dict_buffer_bytes := by
  rcases st with ⟨buf, phase⟩
  cases phase
  case collecting =>
    simp only [sampleStep]
    split_ifs with h1 h2 h3
    all_goals simp_all
  case finalizing => exact hst
  case abandoned => exact hst

/-- Claim C4: over every event sequence (block sample sizes paired with
memory-charge grant/deny responses), the sampler's buffered byte count never
exceeds a nonzero `max_dict_buffer_bytes`, and finalization always yields a
dictionary (of size at most `max_dict_bytes`, possibly empty) — including
when every charge is denied or no block ever reaches the sampler. -/
theorem sampler_budget_and_finalize (opts : CompressionOptions)
    (events : List (Nat × Bool)) (h : opts.max_dict_buffer_bytes ≠ 0) :
    (runSampler opts events).buffered ≤ opts.max_dict_buffer_bytes ∧
    (finalizeDictionary opts (runSampler opts events)).2 ≤ opts.max_dict_bytes := by
  have main : ∀ (evs : List (Nat × Bool)) (st : SamplerState),
      st.buffered ≤ opts.max_dict_buffer_bytes →
      (evs.foldl (fun st e => sampleStep opts st e.1 e.2) st).buffered ≤
        opts.max_dict_buffer_bytes := by
    intro evs
    induction evs with
    | nil => intro st hst; exact hst
    | cons e rest ih =>
      intro st hst
      exact ih _ (sampleStep_buffered_le opts st e.1 e.2 h hst)
  refine ⟨main events initSampler (by simp [initSampler]), ?_⟩
  unfold finalizeDictionary
  split_ifs <;> exact Nat.min_le_right _ _

/-- Witness for C4: with a dictionary of 4 bytes and a 5-byte buffer cap, a
single denied charge keeps the buffer within budget and finalization stays
within the dictionary size. -/
theorem sampler_budget_and_finalize_witness :
    (5 : Nat) ≠ 0 ∧
    ((runSampler
        { defaultCompressionOptions with
            max_dict_bytes := 4, max_dict_buffer_bytes := 5 }
        [(10, false)]).buffered ≤ 5 ∧
      (finalizeDictionary
        { defaultCompressionOptions with
            max_dict_bytes := 4, max_dict_buffer_bytes := 5 }
        (runSampler
          { defaultCompressionOptions with
              max_dict_bytes := 4, max_dict_buffer_bytes := 5 }
          [(10, false)])).2 ≤ 4) :=
  ⟨by decide,
   sampler_budget_and_finalize
     { defaultCompressionOptions with
         max_dict_bytes := 4, max_dict_buffer_bytes := 5 }
     [(10, false)] (by decide)⟩

/-- Draining preserves the sequencer invariant and, given enough fuel,
reaches the fixpoint where the next-to-deliver block is not yet held. -/
theorem drain_inv (fuel : Nat) :
    ∀ (processed : List Nat) (st : SchedulerState), SchedInv processed st →
      st.held.length ≤ fuel →
      SchedInv processed (drain fuel st) ∧
      (drain fuel st).nextIdx ∉ (drain fuel st).held := by
  induction fuel with
  | zero =>
    intro processed st hinv hlen
    have hnil : st.held = [] := List.eq_nil_of_length_eq_zero (Nat.le_zero.mp hlen)
    refine ⟨hinv, ?_⟩
    show st.nextIdx ∉ st.held
    rw [hnil]
    exact List.not_mem_nil _
  | succ n ih =>
    intro processed st hinv hlen
    by_cases hmem : st.nextIdx ∈ st.held
    · have hstep : drain (n + 1) st = drain n
          { nextIdx := st.nextIdx + 1, held := st.held.erase st.nextIdx,
            delivered := st.delivered ++ [st.nextIdx] } := by
        simp only [drain]
        rw [if_pos hmem]
      rw [hstep]
      obtain ⟨hdel, hnd, hmemiff, hbelow⟩ := hinv
      refine ih processed _ ⟨?_, ?_, ?_, ?_⟩ ?_
      · show st.delivered ++ [st.nextIdx] = List.range (st.nextIdx + 1)
        rw [hdel, ← List.range_succ]
      · exact hnd.erase _
      · intro i
        dsimp only
        rw [hnd.mem_erase_iff, hmemiff i]
        constructor
        · rintro ⟨hne, hp, hle⟩
          exact ⟨hp, by omega⟩
        · rintro ⟨hp, hle⟩
          exact ⟨by omega, hp, by omega⟩
      · intro i hi
        dsimp only at hi
        rcases Nat.lt_succ_iff_lt_or_eq.mp hi with hlt | heq
        · exact hbelow i hlt
        · rw [heq]
          exact ((hmemiff _).mp hmem).1
      · show (st.held.erase st.nextIdx).length ≤ n
        rw [List.length_erase_of_mem hmem]
        omega
    · have hstep : drain (n + 1) st = st := by
        simp only [drain]
        rw [if_neg hmem]
      rw [hstep]
      exact ⟨hinv, hmem⟩

/-- Folding completion notifications through the sequencer preserves the
invariant and the drained fixpoint, accumulating the processed set. -/
theorem foldl_onComplete_inv (n : Nat) :
    ∀ (todo processed : List Nat) (st : SchedulerState),
      SchedInv processed st → st.nextIdx ∉ st.held →
      (∀ j ∈ processed, j < n) → (∀ c ∈ todo, c < n) →
      (∀ c ∈ todo, c ∉ processed) → todo.Nodup →
      SchedInv (todo.reverse ++ processed) (todo.foldl (onComplete n) st) ∧
      (todo.foldl (onComplete n) st).nextIdx ∉
        (todo.foldl (onComplete n) st).held := by
  intro todo
  induction todo with
  | nil =>
    intro processed st hinv hfix _ _ _ _
    exact ⟨by simpa using hinv, hfix⟩
  | cons c rest ih =>
    intro processed st hinv hfix hproc htodo hnew hnd
    obtain ⟨hdel, hndh, hmemiff, hbelow⟩ := hinv
    have hcnotp : c ∉ processed := hnew c (List.mem_cons_self c rest)
    have hcnoth : c ∉ st.held := fun hc => hcnotp ((hmemiff c).mp hc).1
    have hcge : st.nextIdx ≤ c := by
      by_contra hlt
      exact hcnotp (hbelow c (by omega))
    have hinv1 : SchedInv (c :: processed) { st with held := c :: st.held } := by
      refine ⟨hdel, List.nodup_cons.mpr ⟨hcnoth, hndh⟩, ?_, ?_⟩
      · intro i
        show i ∈ c :: st.held ↔ _
        constructor
        · intro hi
          rcases List.mem_cons.mp hi with heq | hmem
          · subst heq
            exact ⟨List.mem_cons_self _ _, hcge⟩
          · obtain ⟨hp, hle⟩ := (hmemiff i).mp hmem
            exact ⟨List.mem_cons_of_mem _ hp, hle⟩
        · rintro ⟨hp, hle⟩
          rcases List.mem_cons.mp hp with heq | hmem
          · subst heq
            exact List.mem_cons_self _ _
          · exact List.mem_cons_of_mem _ ((hmemiff i).mpr ⟨hmem, hle⟩)
      · intro i hi
        exact List.mem_cons_of_mem _ (hbelow i hi)
    have hheldlt : ∀ j ∈ c :: st.held, j < n := by
      intro j hj
      rcases List.mem_cons.mp hj with heq | hmem
      · rw [heq]
        exact htodo c (List.mem_cons_self _ _)
      · exact hproc j ((hmemiff j).mp hmem).1
    have hlen : (c :: st.held).length ≤ n :=
      length_le_of_nodup_lt _ n (List.nodup_cons.mpr ⟨hcnoth, hndh⟩) hheldlt
    obtain ⟨hinv2, hfix2⟩ :=
      drain_inv n (c :: processed) { st with held := c :: st.held } hinv1 hlen
    have h1 : ∀ j ∈ c :: processed, j < n := by
      intro j hj
      rcases List.mem_cons.mp hj with heq | hmem
      · rw [heq]
        exact htodo c (List.mem_cons_self _ _)
      · exact hproc j hmem
    have h2 : ∀ x ∈ rest, x < n :=
      fun x hx => htodo x (List.mem_cons_of_mem _ hx)
    have h3 : ∀ x ∈ rest, x ∉ c :: processed := by
      intro x hx hmem
      rcases List.mem_cons.mp hmem with heq | hp
      · subst heq
        exact (List.nodup_cons.mp hnd).1 hx
      · exact hnew x (List.mem_cons_of_mem _ hx) hp
    have h4 : rest.Nodup := (List.nodup_cons.mp hnd).2
    obtain ⟨ha, hb⟩ := ih (c :: processed) (onComplete n st c) hinv2 hfix2 h1 h2 h3 h4
    have heq : (c :: rest).reverse ++ processed = rest.reverse ++ (c :: processed) := by
      simp
    rw [List.foldl_cons, heq]
    exact ⟨ha, hb⟩

/-- Claim C5: for every block count and every worker completion order (any
permutation of the submitted block indices), the sequencer delivers results
to the file-building collaborator in exactly the submission order. -/
theorem scheduler_delivers_in_order (n : Nat) (completions : List Nat)
    (hperm : completions.Perm (List.range n)) :
    runScheduler n completions = List.range n := by
  have hinv0 : SchedInv [] initScheduler := by
    refine ⟨rfl, List.nodup_nil, ?_, ?_⟩
    · intro i
      simp [initScheduler]
    · intro i hi
      simp [initScheduler] at hi
  have hfix0 : initScheduler.nextIdx ∉ initScheduler.held := by
    simp [initScheduler]
  have hmemc : ∀ c ∈ completions, c < n := by
    intro c hc
    exact List.mem_range.mp (hperm.mem_iff.mp hc)
  have hndc : completions.Nodup := hperm.nodup_iff.mpr (List.nodup_range n)
  obtain ⟨⟨hdel, hndh, hmemiff, hbelow⟩, hfix⟩ :=
    foldl_onComplete_inv n completions [] initScheduler hinv0 hfix0
      (by intro j hj; simp at hj) hmemc (by intro c hc; simp) hndc
  have hpmem : ∀ j, j ∈ completions.reverse ++ ([] : List Nat) ↔ j < n := by
    intro j
    rw [List.append_nil, List.mem_reverse, hperm.mem_iff, List.mem_range]
  have hle : (completions.foldl (onComplete n) initScheduler).nextIdx ≤ n := by
    by_contra hgt
    have hn : n ∈ completions.reverse ++ ([] : List Nat) := hbelow n (by omega)
    exact absurd ((hpmem n).mp hn) (lt_irrefl n)
  have hge : n ≤ (completions.foldl (onComplete n) initScheduler).nextIdx := by
    by_contra hlt
    have hp : (completions.foldl (onComplete n) initScheduler).nextIdx ∈
        completions.reverse ++ ([] : List Nat) :=
      (hpmem _).mpr (by omega)
    exact hfix ((hmemiff _).mpr ⟨hp, le_refl _⟩)
  have hidx : (completions.foldl (onComplete n) initScheduler).nextIdx = n :=
    le_antisymm hle hge
  show (completions.foldl (onComplete n) initScheduler).delivered = List.range n
  rw [hdel, hidx]

/-- Witness for C5: three blocks completing in the order 2, 0, 1 are still
delivered as 0, 1, 2. -/
theorem scheduler_delivers_in_order_witness :
    runScheduler 3 [2, 0, 1] = List.range 3 :=
  scheduler_delivers_in_order 3 [2, 0, 1] (by decide)

end RocksDB
